import Mathlib

/-!
Verification of the survey-extraction core of `wjx_to_docx.py`.

The Python module parses a survey HTML page into a structured `Survey`
model.  Two kinds of inputs feed the parser:

* the raw HTML text, scanned with substring / regular-expression
  heuristics (`check_restricted_page`, `extract_global_logic_signals`);
* the DOM tree produced by BeautifulSoup, traversed with CSS-style
  selectors (`parse_survey` and the extraction helpers).

We embed the raw text as `String` and the DOM as an explicit node tree
(`Node`).  The HTML-to-tree step performed by BeautifulSoup is outside
the source under verification, so the two views of the input are
independent parameters of `parse_survey`.

Python's `\s` is modelled by the ASCII whitespace class (the Chinese
keyword constants and all separators used by the code are unaffected);
`str.lower` / `re.IGNORECASE` are modelled by ASCII char lowering.
-/

namespace Wjx

/-! ### Basic string helpers (`normalize_text`, `truncate`, ...) -/

/-- ASCII approximation of Python's `\s` class / `str.strip` whitespace. -/
def pySpace (c : Char) : Bool :=
  c = ' ' || c = '\t' || c = '\n' || c = '\r' || c = '\x0b' || c = '\x0c'

/-- Split a character list into maximal whitespace-free words (helper for
`normalize_text`); implemented as a single right fold so that it reduces
in the kernel. -/
def wordsOf (l : List Char) : List (List Char) :=
  (l.foldr step ([], true)).1
where
  step (c : Char) (acc : List (List Char) × Bool) : List (List Char) × Bool :=
    if pySpace c then (acc.1, true)
    else
      match acc.2, acc.1 with
      | true, ws => ([c] :: ws, false)
      | false, [] => ([[c]], false)
      | false, w :: rest => ((c :: w) :: rest, false)

/-- Join words with a single separating space. -/
def joinWords : List (List Char) → List Char
  | [] => []
  | [w] => w
  | w :: w2 :: rest => w ++ ' ' :: joinWords (w2 :: rest)

/-- Python `normalize_text`: collapse internal whitespace runs to a single
space and strip the ends (`re.sub(r"\s+", " ", text).strip()`). -/
def normalize_text (s : String) : String :=
  String.mk (joinWords (wordsOf s.toList))

/-- Join a list of strings with a separator (Python `sep.join`). -/
def joinSep (sep : String) : List String → String
  | [] => ""
  | [x] => x
  | x :: y :: rest => x ++ sep ++ joinSep sep (y :: rest)

/-- Python `unique_keep_order` (auxiliary recursion carrying the set of
seen items). -/
def uniqAux (seen : List String) : List String → List String
  | [] => []
  | x :: rest => if seen.contains x then uniqAux seen rest else x :: uniqAux (x :: seen) rest

/-- Python `unique_keep_order`: drop duplicates, keeping first occurrences. -/
def unique_keep_order (items : List String) : List String :=
  uniqAux [] items

/-- Python `truncate`: normalize, then cut to `maxLen` characters with a
`"..."` suffix.  Only ever called with `maxLen ≥ 3` in the source. -/
def truncate (text : String) (maxLen : Nat) : String :=
  let t := normalize_text text
  if t.length ≤ maxLen then t else String.mk (t.toList.take (maxLen - 3)) ++ "..."

/-- ASCII lowering, modelling `str.lower` / `re.IGNORECASE` on the ASCII
patterns and keyword constants used by the source. -/
def lowerString (s : String) : String :=
  String.mk (s.toList.map Char.toLower)

/-- Substring test on character lists. -/
def isSubList (needle : List Char) : List Char → Bool
  | [] => needle.isEmpty
  | c :: rest => needle.isPrefixOf (c :: rest) || isSubList needle rest

/-- `needle in hay` on strings (Python `in`). -/
def containsStr (hay needle : String) : Bool :=
  isSubList needle.toList hay.toList

/-- Python `str.strip()` on a character list. -/
def pyStrip (l : List Char) : List Char :=
  ((l.dropWhile pySpace).reverse.dropWhile pySpace).reverse

/-! ### Data model (the dataclasses of the source) -/

/-- `EXIT_PARSE` exit code constant. -/
def EXIT_PARSE : Nat := 3

/-- The classified error raised by the core (`ExportError`). -/
structure ExportError where
  code : Nat
  message : String
deriving DecidableEq, Repr

/-- `Section` dataclass.  `name` / `start_topic` / `end_topic`. -/
structure Section where
  name : String
  start_topic : Option Nat
  end_topic : Option Nat
deriving DecidableEq, Repr

/-- `Question` dataclass.  The Python field `section` is called
`sectionName` here because `section` is a Lean keyword. -/
structure Question where
  index : Nat
  topic_id : Option Nat
  display_no : String
  qtype : String
  required : Bool
  stem : String
  options : String
  logic_notes : String
  sectionName : String
deriving DecidableEq, Repr

/-- `Survey` dataclass. -/
structure Survey where
  title : String
  description : String
  source_url : String
  crawl_time : String
  sections : List Section
  questions : List Question
deriving DecidableEq, Repr

/-! ### `check_restricted_page`: keyword markers and the password regex -/

/-- The five gating keyword markers and their classified reasons, in the
source's (insertion) order. -/
def keyword_reasons : List (String × String) :=
  [("验证码", "检测到验证码页面，当前版本不支持自动处理验证码。"),
   ("滑块验证", "检测到滑块验证，当前版本不支持自动处理风控验证。"),
   ("请输入访问密码", "检测到密码访问页面，当前版本不支持密码问卷。"),
   ("请先登录", "检测到登录限制页面，当前版本不支持登录态问卷。"),
   ("访问过于频繁", "检测到频率限制，请稍后重试。")]

/-- Case-insensitively drop `pat` (given in lowercase) from the front of
`s`; `none` if it is not a prefix. -/
def dropCIPrefix (pat : List Char) (s : List Char) : Option (List Char) :=
  match pat, s with
  | [], rest => some rest
  | _ :: _, [] => none
  | p :: ps, c :: cs => if c.toLower = p.toLower then dropCIPrefix ps cs else none

/-- A quote character, `['\"]` in the password regex. -/
def isQuoteChar (c : Char) : Bool :=
  c = '\'' || c = '"'

/-- Tail of the password regex: `type=['\"]password['\"]`
(case-insensitive literals, independent quote classes). -/
def pwTail (s : List Char) : Bool :=
  match dropCIPrefix "type=".toList s with
  | none => false
  | some r1 =>
    match r1 with
    | [] => false
    | q1 :: r2 =>
      isQuoteChar q1 &&
        (match dropCIPrefix "password".toList r2 with
         | none => false
         | some r3 =>
           match r3 with
           | [] => false
           | q2 :: _ => isQuoteChar q2)

/-- `[^>]+` followed by the tail: consume at least one non-`>` character,
then either match the tail or extend the gap (regex backtracking as an
explicit disjunction). -/
def pwGap : List Char → Bool
  | [] => false
  | c :: rest => decide (c ≠ '>') && (pwTail rest || pwGap rest)

/-- Match `<input[^>]+type=['\"]password['\"]` at the head of the list. -/
def pwAt (s : List Char) : Bool :=
  match dropCIPrefix "<input".toList s with
  | some r => pwGap r
  | none => false

/-- `re.search` of the password pattern: try every position. -/
def password_input_search : List Char → Bool
  | [] => false
  | c :: rest => pwAt (c :: rest) || password_input_search rest

/-- Python `check_restricted_page`: first matching keyword reason, else
the password-input reason, else `none`. -/
def check_restricted_page (html : String) : Option String :=
  let lower_html := lowerString html
  match keyword_reasons.find? (fun p => containsStr lower_html (lowerString p.1)) with
  | some p => some p.2
  | none =>
    if password_input_search html.toList then
      some "检测到密码输入框，当前版本不支持密码问卷。"
    else
      none

/-! ### `extract_global_logic_signals`: the script-variable scanner -/

/-- `[A-Za-z_]`, the first character of a variable name. -/
def isWordStart (c : Char) : Bool :=
  c.isAlpha || c = '_'

/-- `[A-Za-z0-9_]`, subsequent characters of a variable name. -/
def isWordChar (c : Char) : Bool :=
  c.isAlphanum || c = '_'

/-- Try to match `var\s+([A-Za-z_][A-Za-z0-9_]*)\s*=\s*([^;]{1,800});`
anchored at the head of the list (with `var` case-insensitive).  Returns
the captured name and value and the rest of the input after the `;`.
The only place where regex backtracking is observable is the greedy
`\s*` before the value: when the value run is empty it donates its last
whitespace character to satisfy `{1,800}` (Python behaves the same way,
e.g. on `"var a =  ;"`). -/
def matchAssign (s : List Char) : Option (String × String × List Char) :=
  match dropCIPrefix "var".toList s with
  | none => none
  | some r1 =>
    if (r1.takeWhile pySpace).isEmpty then none
    else
      match r1.dropWhile pySpace with
      | [] => none
      | c :: cs =>
        if isWordStart c then
          let name := c :: cs.takeWhile isWordChar
          let r3 := cs.dropWhile isWordChar
          match r3.dropWhile pySpace with
          | '=' :: r5 =>
            let w3 := r5.takeWhile pySpace
            let r6 := r5.dropWhile pySpace
            let val := r6.takeWhile (fun ch => ch ≠ ';')
            match r6.dropWhile (fun ch => ch ≠ ';') with
            | ';' :: r8 =>
              if 1 ≤ val.length && val.length ≤ 800 then
                some (String.mk name, String.mk val, r8)
              else if val.length = 0 && !w3.isEmpty then
                some (String.mk name, String.mk [w3.getLastD ' '], r8)
              else none
            | _ => none
          | _ => none
        else none

/-- `re.findall` of the assignment pattern: scan left to right, emitting
non-overlapping matches and resuming after each one.  The fuel argument
is an upper bound on the number of scan steps; every step consumes at
least one character, so `length + 1` fuel is always enough. -/
def scanAux : Nat → List Char → List (String × String)
  | 0, _ => []
  | _ + 1, [] => []
  | fuel + 1, c :: rest =>
    match matchAssign (c :: rest) with
    | some (n, v, r8) => (n, v) :: scanAux fuel r8
    | none => scanAux fuel rest

/-- All `(name, value)` pairs matched by the assignment regex, in order. -/
def scanAssignments (html : String) : List (String × String) :=
  scanAux (html.length + 1) html.toList

/-- `re.search(r"(rel|jump|logic|skip|display|cond)", name, re.IGNORECASE)`. -/
def keepName (name : String) : Bool :=
  ["rel", "jump", "logic", "skip", "display", "cond"].any
    (fun k => containsStr (lowerString name) k)

/-- `re.search(r"(rel|jump|logic|skip|display|condition)", value, re.IGNORECASE)`. -/
def keepValue (value : String) : Bool :=
  ["rel", "jump", "logic", "skip", "display", "condition"].any
    (fun k => containsStr (lowerString value) k)

/-- Insert into an insertion-ordered dict modelled as an association
list: overwrite in place if the key exists, else append. -/
def dictInsert (d : List (String × String)) (k v : String) : List (String × String) :=
  if d.any (fun p => p.1 = k) then
    d.map (fun p => if p.1 = k then (k, v) else p)
  else
    d ++ [(k, v)]

/-- One iteration of the `for name, value in pattern.findall(html)` loop
of `extract_global_logic_signals`: keep the pair when the name matches
the name keyword set, else when the value matches the value keyword
set; the stored value is truncated to 140 characters. -/
def signalStep (acc : List (String × String)) (n v : String) : List (String × String) :=
  if keepName n then dictInsert acc n (truncate v 140)
  else if keepValue v then dictInsert acc n (truncate v 140)
  else acc

/-- The whole `findall` loop of `extract_global_logic_signals`. -/
def signalsOfPairs (acc : List (String × String)) : List (String × String) → List (String × String)
  | [] => acc
  | (n, v) :: rest => signalsOfPairs (signalStep acc n v) rest

/-- Python `extract_global_logic_signals`. -/
def extract_global_logic_signals (html : String) : List (String × String) :=
  signalsOfPairs [] (scanAssignments html)

/-! ### The DOM tree and the selectors used by the source

BeautifulSoup tags are modelled as element nodes carrying the tag name,
the attribute bag, the parsed `class` list and the child nodes; strings
are text nodes.  Only the selector shapes actually used by the source
are modelled: simple predicates on one element (tag / class / id /
attribute tests), the descendant combinator `.a .b`, and the union
`sel1, sel2`.  As in soupsieve, `node.select(sel)` matches strict
descendants of `node`, and for the descendant combinator the context
node itself counts as a possible ancestor. -/

inductive Node where
  | text (s : String)
  | elem (tag : String) (attrs : List (String × String)) (classes : List String)
      (children : List Node)

/-- `tag.get(key)`: attribute lookup returning `none` when absent. -/
def getAttr (n : Node) (key : String) : Option String :=
  match n with
  | .text _ => none
  | .elem _ attrs _ _ => (attrs.find? (fun p => p.1 = key)).map (fun p => p.2)

/-- `tag.get(key, "")`. -/
def getAttrD (n : Node) (key : String) : String :=
  (getAttr n key).getD ""

/-- Membership of a class in `tag.get("class", [])`. -/
def hasClass (c : String) (n : Node) : Bool :=
  match n with
  | .text _ => false
  | .elem _ _ classes _ => classes.contains c

/-- Tag-name test. -/
def tagIs (t : String) (n : Node) : Bool :=
  match n with
  | .text _ => false
  | .elem tag _ _ _ => tag = t

mutual

/-- All raw text fragments below a node, in document order
(BeautifulSoup `strings`). -/
def nodeStrings : Node → List String
  | .text s => [s]
  | .elem _ _ _ cs => nodeListStrings cs

def nodeListStrings : List Node → List String
  | [] => []
  | c :: rest => nodeStrings c ++ nodeListStrings rest

end

/-- `tag.get_text(" ", strip=True)`: strip each fragment, drop the empty
ones, join with single spaces. -/
def getTextStrip (n : Node) : String :=
  String.mk (joinWords (((nodeStrings n).map (fun s => pyStrip s.toList)).filter
    (fun l => !l.isEmpty)))

/-- Python `tag_text`: `""` for `None`, else normalized `get_text`. -/
def tag_text (n : Option Node) : String :=
  match n with
  | none => ""
  | some t => normalize_text (getTextStrip t)

/-- The selector shapes used by the source. -/
inductive Sel where
  | simple (p : Node → Bool)
  | desc (anc : Node → Bool) (tgt : Node → Bool)
  | or2 (s1 s2 : Sel)

/-- Does `n`, with strict-ancestor list `ancs` (innermost first), match
the selector? -/
def matchesSel : Sel → List Node → Node → Bool
  | .simple p, _, n => p n
  | .desc anc tgt, ancs, n => tgt n && ancs.any anc
  | .or2 s1 s2, ancs, n => matchesSel s1 ancs n || matchesSel s2 ancs n

mutual

/-- Matching strict descendants of a node, in document (pre-)order. -/
def collectNode (s : Sel) (ancs : List Node) : Node → List Node
  | .text _ => []
  | .elem tag attrs classes cs => collectChildren s (Node.elem tag attrs classes cs :: ancs) cs

def collectChildren (s : Sel) (ancs : List Node) : List Node → List Node
  | [] => []
  | c :: rest =>
    (if matchesSel s ancs c then [c] else []) ++ collectNode s ancs c ++
      collectChildren s ancs rest

end

/-- `tag.select(sel)` (document order, strict descendants). -/
def select (n : Node) (s : Sel) : List Node :=
  collectNode s [] n

/-- `tag.select_one(sel)` / `tag.find(...)`. -/
def selOne (n : Node) (s : Sel) : Option Node :=
  (select n s).head?

/-- Selector for a tag name, e.g. `"div"` / `"tr"` / `"title"`. -/
def tagSel (t : String) : Sel :=
  .simple (tagIs t)

/-- Selector for a class, e.g. `".label"`. -/
def classSel (c : String) : Sel :=
  .simple (hasClass c)

/-- Selector for an id, e.g. `"#divQuestion"`. -/
def idSel (i : String) : Sel :=
  .simple (fun n => getAttr n "id" = some i)

/-! ### Question-level extraction helpers -/

/-- Leading digit run of a character list interpreted as a number
(`int(match.group(1))` for the regex `(\d+)`). -/
def digitsToNat (l : List Char) : Nat :=
  l.foldl (fun a c => a * 10 + (c.toNat - '0'.toNat)) 0

/-- First maximal digit run of a character list, modelling
`re.search(r"(\d+)", raw)`. -/
def firstDigitRun : List Char → Option (List Char)
  | [] => none
  | c :: rest =>
    if c.isDigit then some (c :: rest.takeWhile Char.isDigit) else firstDigitRun rest

/-- Python `parse_topic_id`: `None` for a missing or empty attribute or
when no digits occur, else the first digit run as an integer. -/
def parse_topic_id (raw : Option String) : Option Nat :=
  match raw with
  | none => none
  | some r =>
    if r = "" then none
    else (firstDigitRun r.toList).map digitsToNat

/-- Python `map_qtype`: the fixed type-code table with an
unknown-type fallback preserving the raw code (or `N/A`). -/
def map_qtype (type_code : String) : String :=
  if type_code = "1" then "填空"
  else if type_code = "3" then "单选"
  else if type_code = "4" then "多选"
  else if type_code = "5" then "量表"
  else if type_code = "6" then "矩阵量表"
  else "未知类型(" ++ (if type_code = "" then "N/A" else type_code) ++ ")"

/-- Python `is_cutfield`: the divider marker class. -/
def is_cutfield (n : Node) : Bool :=
  hasClass "cutfield" n

/-- Python `is_question_field`: both question marker classes. -/
def is_question_field (n : Node) : Bool :=
  hasClass "field" n && hasClass "ui-field-contain" n

/-- Python `extract_description`: ordered candidate selectors, then the
`og:description` meta tag, then `""`. -/
def extract_description (soup : Node) : String :=
  let candidates : List Sel :=
    [idSel "divDesc", idSel "desc", classSel "desc_begin", classSel "description",
     classSel "survey-desc"]
  match (candidates.map (fun sel => tag_text (selOne soup sel))).find? (fun t => t ≠ "") with
  | some t => t
  | none =>
    match selOne soup (.simple (fun n => tagIs "meta" n &&
        getAttr n "property" = some "og:description")) with
    | some meta =>
      match getAttr meta "content" with
      | some content => if content = "" then "" else normalize_text content
      | none => ""
    | none => ""

/-- Python `extract_option_labels`: non-empty label texts under the
selector, de-duplicated keeping order. -/
def extract_option_labels (node : Node) (s : Sel) : List String :=
  unique_keep_order (((select node s).map (fun l => tag_text (some l))).filter
    (fun t => t ≠ ""))

/-- The selector `.scale-rating a[val], .scale-div a[val]`. -/
def scaleAnchorSel : Sel :=
  .or2 (.desc (hasClass "scale-rating") (fun a => tagIs "a" a && (getAttr a "val").isSome))
    (.desc (hasClass "scale-div") (fun a => tagIs "a" a && (getAttr a "val").isSome))

/-- `"；".join(labels) if labels else placeholder` (the option-label
one-liners of `extract_options`). -/
def labelsOr (labels : List String) (placeholder : String) : String :=
  if labels ≠ [] then joinSep "；" labels else placeholder

/-- `"\n".join(lines) if lines else placeholder` (the final line of the
scale and matrix extractors). -/
def linesOr (lines : List String) (placeholder : String) : String :=
  if lines ≠ [] then joinSep "\n" lines else placeholder

/-- The de-duplicated anchor texts of a scale question (the `anchors`
accumulation loop of `extract_scale_options`). -/
def scaleAnchors (node : Node) : List String :=
  unique_keep_order ((select node scaleAnchorSel).filterMap (fun a =>
    let val := normalize_text (getAttrD a "val")
    let title :=
      (let t := normalize_text (getAttrD a "title")
       if t ≠ "" then t else normalize_text (getAttrD a "htitle"))
    if val = "" then none
    else some (if title ≠ "" then val ++ "(" ++ title ++ ")" else val)))

/-- The `lines` accumulation of `extract_scale_options`: the range line
when an extreme is present, then the anchor line when anchors exist. -/
def scaleLines (left right : String) (anchors : List String) : List String :=
  (if left ≠ "" || right ≠ "" then
    ["范围: " ++ (if left ≠ "" then left else "-") ++ " -> " ++
      (if right ≠ "" then right else "-")]
   else []) ++
  (if anchors ≠ [] then ["刻度: " ++ joinSep "，" anchors] else [])

/-- Python `extract_scale_options`: extremes plus de-duplicated anchor
values, or the scale placeholder. -/
def extract_scale_options (node : Node) : String :=
  linesOr
    (scaleLines (tag_text (selOne node (classSel "scaleTitle_frist")))
      (tag_text (selOne node (classSel "scaleTitle_last"))) (scaleAnchors node))
    "（量表题，未提取到刻度文本）"

/-- The selector `table.matrix-rating, table.matrixtable`. -/
def matrixTableSel : Sel :=
  .or2 (.simple (fun t => tagIs "table" t && hasClass "matrix-rating" t))
    (.simple (fun t => tagIs "table" t && hasClass "matrixtable" t))

/-- The cell query `find_all(["th", "td"])`. -/
def thTdSel : Sel :=
  .or2 (tagSel "th") (tagSel "td")

/-- The column labels derived from the header row of a matrix table
(first cell dropped when empty, then all empties dropped). -/
def matrixHeaders (row0 : Node) : List String :=
  let headers0 := (select row0 thTdSel).map (fun c => tag_text (some c))
  let headers1 :=
    match headers0 with
    | [] => ([] : List String)
    | h :: t => if h = "" then t else h :: t
  headers1.filter (fun h => h ≠ "")

/-- The row labels of a matrix table: non-empty first-cell texts of the
rows after the header. -/
def matrixRowLabels (rows : List Node) : List String :=
  rows.filterMap (fun row =>
    match select row thTdSel with
    | [] => none
    | c0 :: _ =>
      let first := tag_text (some c0)
      if first ≠ "" then some first else none)

/-- The `lines` accumulation of `extract_matrix_options`: the column
line when headers exist, then the row line when row labels exist. -/
def matrixLines (headers row_labels : List String) : List String :=
  (if headers ≠ [] then ["列: " ++ joinSep " | " headers] else []) ++
  (if row_labels ≠ [] then ["行: " ++ joinSep "；" row_labels] else [])

/-- The part of `extract_matrix_options` downstream of the table
lookup: rows, header labels, row labels, formatted lines. -/
def matrixFromTable (table : Node) : String :=
  match select table (tagSel "tr") with
  | [] => "（矩阵题，表格内容为空）"
  | row0 :: rest =>
    linesOr (matrixLines (matrixHeaders row0) (matrixRowLabels rest))
      "（矩阵题，未提取到有效行列文本）"

/-- Python `extract_matrix_options`: header-row column labels and
first-cell row labels, with the three matrix placeholders. -/
def extract_matrix_options (node : Node) : String :=
  match selOne node matrixTableSel with
  | none => "（矩阵题，未提取到表格结构）"
  | some table => matrixFromTable table

/-- The selector `.ui-radio .label`. -/
def radioLabelSel : Sel :=
  .desc (hasClass "ui-radio") (hasClass "label")

/-- The selector `.ui-checkbox .label`. -/
def checkboxLabelSel : Sel :=
  .desc (hasClass "ui-checkbox") (hasClass "label")

/-- Python `extract_options`: the type-dispatched option strategies. -/
def extract_options (node : Node) (type_code : String) : String :=
  if type_code = "3" then
    labelsOr (extract_option_labels node radioLabelSel) "（单选题，未提取到选项）"
  else if type_code = "4" then
    labelsOr (extract_option_labels node checkboxLabelSel) "（多选题，未提取到选项）"
  else if type_code = "1" then "（文本输入）"
  else if type_code = "5" then extract_scale_options node
  else if type_code = "6" then extract_matrix_options node
  else
    labelsOr (extract_option_labels node (classSel "label")) "（无选项或开放题）"

/-! ### `extract_logic_notes` -/

/-- The fixed list of logic-related question attributes. -/
def question_attrs : List String :=
  ["relation", "jumpto", "skipto", "rely", "cond", "condition", "showcond",
   "hidecond", "display"]

/-- The `for attr in question_attrs` loop: one note per non-empty
attribute value. -/
def attrNotes (node : Node) : List String :=
  question_attrs.filterMap (fun attr =>
    let value := normalize_text (getAttrD node attr)
    if value ≠ "" then some ("题属性 " ++ attr ++ "=" ++ value) else none)

/-- Remove space characters (`str.replace(" ", "")` after
normalization). -/
def removeSpaces (s : String) : String :=
  String.mk (s.toList.filter (fun c => c ≠ ' '))

/-- The inline hidden-style check (`display:none` in the lowered,
space-free style attribute). -/
def styleNotes (node : Node) : List String :=
  let style := removeSpaces (lowerString (normalize_text (getAttrD node "style")))
  if containsStr style "display:none" then ["题目初始隐藏（style=display:none）"] else []

/-- First match of `re.search(r"q(\d+)", rel, re.IGNORECASE)`: the digit
run after the first `q`/`Q` that is followed by a digit. -/
def qDigitSearch : List Char → Option String
  | [] => none
  | c :: rest =>
    if (c = 'q' || c = 'Q') &&
        (match rest with
         | d :: _ => d.isDigit
         | [] => false) then
      some (String.mk (rest.takeWhile Char.isDigit))
    else qDigitSearch rest

/-- Notes derived from one descendant `input` / `option` element. -/
def optionElemNotes (input_tag : Node) : List String :=
  let opt_id :=
    (let i := normalize_text (getAttrD input_tag "id")
     if i ≠ "" then i
     else
       let nm := normalize_text (getAttrD input_tag "name")
       if nm ≠ "" then nm
       else
         let v := normalize_text (getAttrD input_tag "value")
         if v ≠ "" then v else "未知选项")
  let jumpto := normalize_text (getAttrD input_tag "jumpto")
  let rel := normalize_text (getAttrD input_tag "rel")
  (if jumpto ≠ "" then ["选项 " ++ opt_id ++ " 跳转到 " ++ jumpto] else []) ++
  (if rel ≠ "" then
    (let guess :=
      match qDigitSearch rel.toList with
      | some ds => "（可能关联题 " ++ ds ++ "）"
      | none => ""
     ["选项 " ++ opt_id ++ " 触发关联字段 " ++ rel ++ guess])
   else [])

/-- The selector `input, option`. -/
def inputOptionSel : Sel :=
  .or2 (tagSel "input") (tagSel "option")

/-- All per-question explicit notes, in the source's order:
attribute notes, then the style note, then input/option notes. -/
def explicitNotes (node : Node) : List String :=
  attrNotes node ++ styleNotes node ++
    ((select node inputOptionSel).map optionElemNotes).flatten

/-- The topic-specific candidate signals: global signal entries whose
lowered value contains `q<topic_id>` or `_<topic_id>`. -/
def topicSignals (topic_id : Option Nat) (global_signals : List (String × String)) :
    List String :=
  match topic_id with
  | none => []
  | some t =>
    global_signals.filterMap (fun p =>
      if containsStr (lowerString p.2) ("q" ++ toString t) ||
          containsStr (lowerString p.2) ("_" ++ toString t) then
        some (p.1 ++ "=" ++ truncate p.2 70)
      else none)

/-- The final composition of `extract_logic_notes`, applied to the
de-duplicated explicit notes and the topic-specific candidate signals:
explicit notes are authoritative, with up to 3 candidate signals
appended as one extra note and the note list capped at 8; candidates
alone produce the unresolved-rule note (up to 4); otherwise the fixed
sentinel. -/
def composeNotes (notes topic_signals : List String) : String :=
  if notes ≠ [] then
    joinSep "；"
      ((if topic_signals ≠ [] then
          notes ++
            ["候选脚本标记: " ++ joinSep "；" (unique_keep_order (topic_signals.take 3))]
        else notes).take 8)
  else if topic_signals ≠ [] then
    "存在候选逻辑标记：" ++ joinSep "；" (unique_keep_order (topic_signals.take 4)) ++
      "（未形成可解析跳题规则）"
  else "未检测到显式逻辑"

/-- Python `extract_logic_notes`. -/
def extract_logic_notes (node : Node) (topic_id : Option Nat)
    (global_signals : List (String × String)) : String :=
  composeNotes (unique_keep_order (explicitNotes node)) (topicSignals topic_id global_signals)

/-! ### `parse_question`, the traversal, `build_sections`, `parse_survey` -/

/-- The required-star selector `.field-label .req`. -/
def reqStarSel : Sel :=
  .desc (hasClass "field-label") (hasClass "req")

/-- Python `parse_question`. -/
def parse_question (node : Node) (display_index : Nat) (section_name : String)
    (global_signals : List (String × String)) : Question :=
  let topic_id := parse_topic_id (getAttr node "topic")
  let type_code := normalize_text (getAttrD node "type")
  let required_attr := normalize_text (getAttrD node "req") = "1"
  let required_star := (selOne node reqStarSel).isSome
  let stem0 := tag_text (selOne node (classSel "topichtml"))
  { index := display_index
    topic_id := topic_id
    display_no := toString display_index
    qtype := map_qtype type_code
    required := required_attr || required_star
    stem := if stem0 ≠ "" then stem0 else "（未识别题干）"
    options := extract_options node type_code
    logic_notes := extract_logic_notes node topic_id global_signals
    sectionName := section_name }

/-- The default section name `"题目列表"`. -/
def defaultSection : String := "题目列表"

/-- The per-parse traversal state of `parse_survey`'s node loop. -/
structure TravState where
  current_section : String
  ordered_names : List String
  questions : List Question
  display_index : Nat
deriving Repr

/-- The name a divider node contributes: the first descendant `div`'s
text, falling back to the node's own text. -/
def dividerName (node : Node) : String :=
  let t := tag_text (selOne node (tagSel "div"))
  if t ≠ "" then t else tag_text (some node)

/-- One iteration of the `for node in nodes` loop of `parse_survey`. -/
def travStep (global_signals : List (String × String)) (st : TravState) (node : Node) :
    TravState :=
  if is_cutfield node then
    let section_name := dividerName node
    if section_name ≠ "" then
      { st with
        current_section := section_name
        ordered_names :=
          if st.ordered_names.contains section_name then st.ordered_names
          else st.ordered_names ++ [section_name] }
    else st
  else if is_question_field node then
    { st with
      display_index := st.display_index + 1
      questions := st.questions ++
        [parse_question node (st.display_index + 1) st.current_section global_signals] }
  else st

/-- Initial traversal state. -/
def travInit : TravState :=
  ⟨defaultSection, [defaultSection], [], 0⟩

/-- The whole node loop. -/
def runTraversal (global_signals : List (String × String)) (nodes : List Node) : TravState :=
  nodes.foldl (travStep global_signals) travInit

/-- Minimum of a list of naturals (Python `min`), `none` when empty. -/
def listMin : List Nat → Option Nat
  | [] => none
  | x :: rest =>
    match listMin rest with
    | none => some x
    | some m => some (Nat.min x m)

/-- Maximum of a list of naturals (Python `max`), `none` when empty. -/
def listMax : List Nat → Option Nat
  | [] => none
  | x :: rest =>
    match listMax rest with
    | none => some x
    | some m => some (Nat.max x m)

/-- The topic ids of the questions assigned to a section name. -/
def topicsOf (questions : List Question) (name : String) : List Nat :=
  (questions.filter (fun q => q.sectionName = name)).filterMap (fun q => q.topic_id)

/-- The per-name section constructor of `build_sections`' loop: `none`
models the `continue` that skips a non-default name with no topics. -/
def mkSection (questions : List Question) (name : String) : Option Section :=
  if (topicsOf questions name).isEmpty && name ≠ defaultSection then none
  else
    some ⟨name, listMin (topicsOf questions name), listMax (topicsOf questions name)⟩

/-- The `if not sections` fallback of `build_sections`: a synthetic
default section when the loop produced nothing. -/
def withDefault (sections : List Section) : List Section :=
  if sections.isEmpty then [⟨defaultSection, none, none⟩] else sections

/-- The final filter of `build_sections`: when more than one section
remains, drop a default-named section with no topic range. -/
def dropEmptyDefault (sections : List Section) : List Section :=
  if sections.length > 1 then
    sections.filter (fun s =>
      !(s.name = defaultSection && s.start_topic.isNone && s.end_topic.isNone))
  else sections

/-- Python `build_sections`. -/
def build_sections (questions : List Question) (ordered_names : List String) :
    List Section :=
  dropEmptyDefault (withDefault (ordered_names.filterMap (mkSection questions)))

/-- `soup.select_one("#divQuestion")`. -/
def findContainer (doc : Node) : Option Node :=
  selOne doc (idSel "divQuestion")

/-- The title extraction of `parse_survey`: `#htitle`, else the
`<title>` element, else the default literal. -/
def surveyTitle (doc : Node) : String :=
  let t := tag_text (selOne doc (idSel "htitle"))
  if t ≠ "" then t
  else
    let t2 := tag_text (selOne doc (tagSel "title"))
    if t2 ≠ "" then t2 else "问卷导出"

/-- The container-missing error message. -/
def containerMissingMsg : String := "页面中未找到题目容器 #divQuestion。"

/-- The zero-questions error message. -/
def noQuestionsMsg : String := "页面解析完成，但未识别到题目。"

/-- Python `parse_survey`.  `html` is the raw text (scanned by the
restriction detector and the signal extractor), `doc` the BeautifulSoup
tree of the same page, `now` the `datetime.now()` timestamp string. -/
def parse_survey (html : String) (doc : Node) (source_url : String) (now : String) :
    Except ExportError Survey :=
  match check_restricted_page html with
  | some reason => .error ⟨EXIT_PARSE, reason⟩
  | none =>
    match findContainer doc with
    | none => .error ⟨EXIT_PARSE, containerMissingMsg⟩
    | some container =>
      let global_signals := extract_global_logic_signals html
      let st := runTraversal global_signals (select container (tagSel "div"))
      if st.questions.isEmpty then .error ⟨EXIT_PARSE, noQuestionsMsg⟩
      else
        .ok
          { title := surveyTitle doc
            description := extract_description doc
            source_url := source_url
            crawl_time := now
            sections := build_sections st.questions st.ordered_names
            questions := st.questions }

/-! ### Concrete fixture documents used by witnesses and counterexamples -/

deriving instance DecidableEq for Except

/-- A minimal single-choice question node with a topic id. -/
def qnode1 : Node :=
  .elem "div" [("topic", "12"), ("type", "3")] ["field", "ui-field-contain"] []

/-- A question node with no attributes at all (no topic, no type). -/
def qnodeNT : Node :=
  .elem "div" [] ["field", "ui-field-contain"] []

/-- A divider node whose text is `"A"`. -/
def cutA : Node :=
  .elem "div" [] ["cutfield"] [.text "A"]

/-- A divider node with no text at all. -/
def cutEmpty : Node :=
  .elem "div" [] ["cutfield"] []

/-- A document whose container holds one plain question. -/
def docW : Node :=
  .elem "html" [] [] [.elem "div" [("id", "divQuestion")] [] [qnode1]]

/-- The container of `docW`. -/
def containerW : Node :=
  .elem "div" [("id", "divQuestion")] [] [qnode1]

/-- A document with a named divider followed by one topic-less question. -/
def docC3 : Node :=
  .elem "html" [] [] [.elem "div" [("id", "divQuestion")] [] [cutA, qnodeNT]]

/-- A document with an empty divider followed by one question. -/
def docC8 : Node :=
  .elem "html" [] [] [.elem "div" [("id", "divQuestion")] [] [cutEmpty, qnodeNT]]

/-- The survey produced by parsing `docW`. -/
def surveyW : Survey :=
  ⟨"问卷导出", "", "u", "t", [⟨"题目列表", some 12, some 12⟩],
    [⟨1, some 12, "1", "单选", false, "（未识别题干）", "（单选题，未提取到选项）",
      "未检测到显式逻辑", "题目列表"⟩]⟩

/-- The survey produced by parsing `docC3`: the question keeps section
`"A"` although the only returned section is the default one. -/
def surveyC3 : Survey :=
  ⟨"问卷导出", "", "u", "t", [⟨"题目列表", none, none⟩],
    [⟨1, none, "1", "未知类型(N/A)", false, "（未识别题干）", "（无选项或开放题）",
      "未检测到显式逻辑", "A"⟩]⟩

/-! ### General helper lemmas -/

lemma string_append_ne_empty {a : String} (b : String) (h : a ≠ "") : a ++ b ≠ "" := by
  intro hc
  apply h
  apply String.ext
  have hd := congrArg String.data hc
  rw [String.data_append] at hd
  have h2 : a.data = [] := (List.append_eq_nil.mp hd).1
  rw [h2]

lemma joinSep_ne_empty (sep : String) (l : List String) (hne : l ≠ [])
    (hall : ∀ x ∈ l, x ≠ "") : joinSep sep l ≠ "" := by
  match l with
  | [] => exact absurd rfl hne
  | [x] =>
    show x ≠ ""
    exact hall x (by simp)
  | x :: y :: rest =>
    show x ++ sep ++ joinSep sep (y :: rest) ≠ ""
    exact string_append_ne_empty _ (string_append_ne_empty _ (hall x (by simp)))

lemma mem_uniqAux {x : String} : ∀ (l seen : List String), x ∈ uniqAux seen l → x ∈ l := by
  intro l
  induction l with
  | nil => intro seen h; simp [uniqAux] at h
  | cons a rest ih =>
    intro seen h
    rw [uniqAux] at h
    split at h
    · exact List.mem_cons_of_mem a (ih seen h)
    · rcases List.mem_cons.mp h with h | h
      · exact h ▸ List.mem_cons_self a rest
      · exact List.mem_cons_of_mem a (ih (a :: seen) h)

lemma mem_unique_keep_order {x : String} {l : List String} (h : x ∈ unique_keep_order l) :
    x ∈ l :=
  mem_uniqAux l [] h

lemma length_uniqAux : ∀ (l seen : List String), (uniqAux seen l).length ≤ l.length := by
  intro l
  induction l with
  | nil => intro seen; simp [uniqAux]
  | cons a rest ih =>
    intro seen
    rw [uniqAux]
    split
    · exact Nat.le_trans (ih seen) (Nat.le_succ _)
    · simp
      exact ih (a :: seen)

lemma length_unique_keep_order (l : List String) : (unique_keep_order l).length ≤ l.length :=
  length_uniqAux l []

lemma truncate_length_le (s : String) (n : Nat) (h3 : 3 ≤ n) : (truncate s n).length ≤ n := by
  by_cases h : (normalize_text s).length ≤ n
  · simp only [truncate, h, if_true]
  · simp only [truncate, h, if_false]
    rw [String.length_append, String.length_mk, List.length_take]
    have hm : (n - 3) ⊓ (normalize_text s).toList.length ≤ n - 3 := Nat.min_le_left _ _
    have he : ("..." : String).length = 3 := rfl
    omega

/-! ### C2: restricted pages abort before structural parsing -/

lemma parse_survey_restricted {html : String} {doc : Node} {source_url now reason : String}
    (h : check_restricted_page html = some reason) :
    parse_survey html doc source_url now = .error ⟨EXIT_PARSE, reason⟩ := by
  unfold parse_survey
  rw [h]

/-- C2: whenever the restriction detector reports a reason (a gating
keyword marker or a structurally matched password-type input field),
`parse_survey` raises the classified `RestrictedPage` error built from
that reason, for every DOM tree — in particular the question container
is never looked up and its presence is irrelevant. -/
theorem c2_restricted_abort (html : String) (doc : Node) (source_url now reason : String)
    (h : check_restricted_page html = some reason) :
    parse_survey html doc source_url now = .error ⟨EXIT_PARSE, reason⟩ :=
  parse_survey_restricted h

/-- A page whose only restriction signal is a password-type input field. -/
def pwHtml : String := "<input type=\"password\">"

/-- Witness for C2: the password page aborts with the password reason
even though `docW` does contain a question container. -/
theorem c2_restricted_abort_witness :
    check_restricted_page pwHtml = some "检测到密码输入框，当前版本不支持密码问卷。" ∧
    (findContainer docW).isSome = true ∧
    parse_survey pwHtml docW "u" "t" =
      .error ⟨EXIT_PARSE, "检测到密码输入框，当前版本不支持密码问卷。"⟩ :=
  ⟨by decide, by rfl,
    c2_restricted_abort pwHtml docW "u" "t" "检测到密码输入框，当前版本不支持密码问卷。" (by decide)⟩

/-! ### C5: determinism up to the crawl timestamp -/

/-- C5: parsing the same raw HTML and DOM with the same source locator
twice yields identical output except for the crawl-timestamp field: the
result of one run is the result of the other with only `crawl_time`
replaced.  (The timestamp is the only input `parse_survey` takes from
the clock.) -/
theorem c5_determinism (html : String) (doc : Node) (source_url t1 t2 : String) :
    parse_survey html doc source_url t1 =
      (parse_survey html doc source_url t2).map (fun s => { s with crawl_time := t1 }) := by
  unfold parse_survey
  cases hc : check_restricted_page html
  · cases hf : findContainer doc
    · rfl
    · rename_i container
      by_cases he :
        (runTraversal (extract_global_logic_signals html)
          (select container (tagSel "div"))).questions.isEmpty
      · simp [he, Except.map]
      · simp [he, Except.map]
  · rfl

/-! ### C10: absent or empty type attribute -/

/-- C10: a question node whose `type` attribute is absent or empty still
parses: the type tag becomes the unknown-type label with the literal
`N/A` in place of a raw code, and options come from the generic fallback
(generic label selector, else the generic open-ended placeholder). -/
theorem c10_unknown_type (node : Node) (display_index : Nat) (section_name : String)
    (global_signals : List (String × String))
    (h : getAttr node "type" = none ∨ normalize_text (getAttrD node "type") = "") :
    (parse_question node display_index section_name global_signals).qtype =
      "未知类型(N/A)" ∧
    (parse_question node display_index section_name global_signals).options =
      labelsOr (extract_option_labels node (classSel "label")) "（无选项或开放题）" := by
  have htc : normalize_text (getAttrD node "type") = "" := by
    rcases h with h | h
    · rw [getAttrD, h]
      decide
    · exact h
  constructor
  · show map_qtype (normalize_text (getAttrD node "type")) = "未知类型(N/A)"
    rw [htc]
    decide
  · show extract_options node (normalize_text (getAttrD node "type")) = _
    rw [htc]
    unfold extract_options
    rw [if_neg (by decide), if_neg (by decide), if_neg (by decide), if_neg (by decide),
      if_neg (by decide)]

/-- Witness for C10: the attribute-less question node `qnodeNT`. -/
theorem c10_unknown_type_witness :
    (parse_question qnodeNT 1 "题目列表" []).qtype = "未知类型(N/A)" ∧
    (parse_question qnodeNT 1 "题目列表" []).options = "（无选项或开放题）" := by
  have h := c10_unknown_type qnodeNT 1 "题目列表" [] (Or.inl (by decide))
  refine ⟨h.1, ?_⟩
  rw [h.2]
  decide


/-! ### C9: type-specific placeholders, never the empty string -/

lemma option_labels_ne_empty {node : Node} {s : Sel} {x : String}
    (h : x ∈ extract_option_labels node s) : x ≠ "" := by
  unfold extract_option_labels at h
  have h2 := (List.mem_filter.mp (mem_unique_keep_order h)).2
  simpa using h2

lemma scaleLines_mem_ne_empty {left right : String} {anchors : List String} :
    ∀ x ∈ scaleLines left right anchors, x ≠ "" := by
  intro x hx
  unfold scaleLines at hx
  rcases List.mem_append.mp hx with h | h
  · split at h
    · simp only [List.mem_singleton] at h
      subst h
      exact string_append_ne_empty _
        (string_append_ne_empty _ (string_append_ne_empty _ (by decide)))
    · exact absurd h (List.not_mem_nil x)
  · split at h
    · simp only [List.mem_singleton] at h
      subst h
      exact string_append_ne_empty _ (by decide)
    · exact absurd h (List.not_mem_nil x)

lemma matrixLines_mem_ne_empty {headers row_labels : List String} :
    ∀ x ∈ matrixLines headers row_labels, x ≠ "" := by
  intro x hx
  unfold matrixLines at hx
  rcases List.mem_append.mp hx with h | h
  · split at h
    · simp only [List.mem_singleton] at h
      subst h
      exact string_append_ne_empty _ (by decide)
    · exact absurd h (List.not_mem_nil x)
  · split at h
    · simp only [List.mem_singleton] at h
      subst h
      exact string_append_ne_empty _ (by decide)
    · exact absurd h (List.not_mem_nil x)

lemma labelsOr_ne_empty {labels : List String} {placeholder : String}
    (hall : ∀ x ∈ labels, x ≠ "") (hp : placeholder ≠ "") :
    labelsOr labels placeholder ≠ "" := by
  unfold labelsOr
  split
  · rename_i hne
    exact joinSep_ne_empty _ _ hne hall
  · exact hp

lemma linesOr_ne_empty {lines : List String} {placeholder : String}
    (hall : ∀ x ∈ lines, x ≠ "") (hp : placeholder ≠ "") :
    linesOr lines placeholder ≠ "" := by
  unfold linesOr
  split
  · rename_i hne
    exact joinSep_ne_empty _ _ hne hall
  · exact hp

lemma labelsOr_nil {labels : List String} {placeholder : String} (h : labels = []) :
    labelsOr labels placeholder = placeholder := by
  unfold labelsOr
  rw [if_neg (by simp [h])]

lemma linesOr_nil {lines : List String} {placeholder : String} (h : lines = []) :
    linesOr lines placeholder = placeholder := by
  unfold linesOr
  rw [if_neg (by simp [h])]

lemma extract_matrix_none {node : Node} (hm : selOne node matrixTableSel = none) :
    extract_matrix_options node = "（矩阵题，未提取到表格结构）" := by
  unfold extract_matrix_options
  rw [hm]

lemma extract_matrix_some {node table : Node} (hm : selOne node matrixTableSel = some table) :
    extract_matrix_options node = matrixFromTable table := by
  unfold extract_matrix_options
  rw [hm]

lemma matrixFromTable_nil {table : Node} (hr : select table (tagSel "tr") = []) :
    matrixFromTable table = "（矩阵题，表格内容为空）" := by
  unfold matrixFromTable
  rw [hr]

lemma matrixFromTable_cons {table row0 : Node} {rest : List Node}
    (hr : select table (tagSel "tr") = row0 :: rest) :
    matrixFromTable table =
      linesOr (matrixLines (matrixHeaders row0) (matrixRowLabels rest))
        "（矩阵题，未提取到有效行列文本）" := by
  unfold matrixFromTable
  rw [hr]

lemma extract_matrix_options_ne_empty (node : Node) : extract_matrix_options node ≠ "" := by
  cases h1 : selOne node matrixTableSel with
  | none =>
    rw [extract_matrix_none h1]
    decide
  | some table =>
    rw [extract_matrix_some h1]
    cases h2 : select table (tagSel "tr") with
    | nil =>
      rw [matrixFromTable_nil h2]
      decide
    | cons row0 rest =>
      rw [matrixFromTable_cons h2]
      exact linesOr_ne_empty matrixLines_mem_ne_empty (by decide)

lemma extract_scale_options_ne_empty (node : Node) : extract_scale_options node ≠ "" := by
  unfold extract_scale_options
  exact linesOr_ne_empty scaleLines_mem_ne_empty (by decide)

lemma extract_options_ne_empty (node : Node) (tc : String) : extract_options node tc ≠ "" := by
  unfold extract_options
  by_cases h3 : tc = "3"
  · rw [if_pos h3]
    exact labelsOr_ne_empty (fun x hx => option_labels_ne_empty hx) (by decide)
  · rw [if_neg h3]
    by_cases h4 : tc = "4"
    · rw [if_pos h4]
      exact labelsOr_ne_empty (fun x hx => option_labels_ne_empty hx) (by decide)
    · rw [if_neg h4]
      by_cases h1 : tc = "1"
      · rw [if_pos h1]
        decide
      · rw [if_neg h1]
        by_cases h5 : tc = "5"
        · rw [if_pos h5]
          exact extract_scale_options_ne_empty node
        · rw [if_neg h5]
          by_cases h6 : tc = "6"
          · rw [if_pos h6]
            exact extract_matrix_options_ne_empty node
          · rw [if_neg h6]
            exact labelsOr_ne_empty (fun x hx => option_labels_ne_empty hx) (by decide)

/-- C9: whenever the type-specific extraction finds no recognizable
options (no single/multi-choice labels, no scale extremes or anchors,
no matrix table / usable rows and columns, no fallback labels for an
unknown code), `extract_options` returns the exact type-specific
placeholder literal for that case, and its result is never the empty
string. -/
theorem c9_option_placeholders (node : Node) (type_code : String) :
    (extract_option_labels node radioLabelSel = [] →
      extract_options node "3" = "（单选题，未提取到选项）") ∧
    (extract_option_labels node checkboxLabelSel = [] →
      extract_options node "4" = "（多选题，未提取到选项）") ∧
    (tag_text (selOne node (classSel "scaleTitle_frist")) = "" →
      tag_text (selOne node (classSel "scaleTitle_last")) = "" →
      scaleAnchors node = [] →
      extract_options node "5" = "（量表题，未提取到刻度文本）") ∧
    (selOne node matrixTableSel = none →
      extract_options node "6" = "（矩阵题，未提取到表格结构）") ∧
    (∀ table, selOne node matrixTableSel = some table →
      select table (tagSel "tr") = [] →
      extract_options node "6" = "（矩阵题，表格内容为空）") ∧
    (∀ table row0 rest, selOne node matrixTableSel = some table →
      select table (tagSel "tr") = row0 :: rest →
      matrixHeaders row0 = [] → matrixRowLabels rest = [] →
      extract_options node "6" = "（矩阵题，未提取到有效行列文本）") ∧
    (type_code ∉ (["1", "3", "4", "5", "6"] : List String) →
      extract_option_labels node (classSel "label") = [] →
      extract_options node type_code = "（无选项或开放题）") ∧
    extract_options node type_code ≠ "" := by
  have h6eq : extract_options node "6" = extract_matrix_options node := by
    unfold extract_options
    rw [if_neg (by decide), if_neg (by decide), if_neg (by decide), if_neg (by decide),
      if_pos rfl]
  refine ⟨?_, ?_, ?_, ?_, ?_, ?_, ?_, extract_options_ne_empty node type_code⟩
  · intro h
    unfold extract_options
    rw [if_pos rfl]
    exact labelsOr_nil h
  · intro h
    unfold extract_options
    rw [if_neg (by decide), if_pos rfl]
    exact labelsOr_nil h
  · intro h1 h2 h3
    unfold extract_options
    rw [if_neg (by decide), if_neg (by decide), if_neg (by decide), if_pos rfl]
    unfold extract_scale_options
    rw [h1, h2, h3]
    exact linesOr_nil (by decide)
  · intro hm
    rw [h6eq]
    exact extract_matrix_none hm
  · intro table hm hr
    rw [h6eq, extract_matrix_some hm]
    exact matrixFromTable_nil hr
  · intro table row0 rest hm hr hh hrl
    rw [h6eq, extract_matrix_some hm, matrixFromTable_cons hr, hh, hrl]
    exact linesOr_nil (by decide)
  · intro hne hl
    have hA : type_code ≠ "3" := fun h => hne (by rw [h]; simp)
    have hB : type_code ≠ "4" := fun h => hne (by rw [h]; simp)
    have hC : type_code ≠ "1" := fun h => hne (by rw [h]; simp)
    have hD : type_code ≠ "5" := fun h => hne (by rw [h]; simp)
    have hE : type_code ≠ "6" := fun h => hne (by rw [h]; simp)
    unfold extract_options
    rw [if_neg hA, if_neg hB, if_neg hC, if_neg hD, if_neg hE]
    exact labelsOr_nil hl

/-- Witness for C9: the empty question node gets the single-choice
placeholder for type code 3, and it is non-empty. -/
theorem c9_option_placeholders_witness :
    extract_options qnodeNT "3" = "（单选题，未提取到选项）" ∧
    extract_options qnodeNT "3" ≠ "" := by
  have h := c9_option_placeholders qnodeNT "3"
  exact ⟨h.1 (by decide), h.2.2.2.2.2.2.2⟩

/-! ### C7: composition of the logic-notes string -/

lemma take_length_le {α : Type} (l : List α) (n : Nat) : (l.take n).length ≤ n := by
  rw [List.length_take]
  exact Nat.min_le_left _ _

lemma unique_take_length_le (l : List String) (n : Nat) :
    (unique_keep_order (l.take n)).length ≤ n :=
  Nat.le_trans (length_unique_keep_order _) (take_length_le l n)

lemma composeNotes_nil_nil {notes ts : List String} (h1 : notes = []) (h2 : ts = []) :
    composeNotes notes ts = "未检测到显式逻辑" := by
  unfold composeNotes
  rw [if_neg (by simp [h1]), if_neg (by simp [h2])]

lemma composeNotes_only_signals {notes ts : List String} (h1 : notes = []) (h2 : ts ≠ []) :
    composeNotes notes ts =
      "存在候选逻辑标记：" ++ joinSep "；" (unique_keep_order (ts.take 4)) ++
        "（未形成可解析跳题规则）" := by
  unfold composeNotes
  rw [if_neg (by simp [h1]), if_pos h2]

lemma composeNotes_only_notes {notes ts : List String} (h1 : notes ≠ []) (h2 : ts = []) :
    composeNotes notes ts = joinSep "；" (notes.take 8) := by
  unfold composeNotes
  rw [if_pos h1, if_neg (by simp [h2])]

lemma composeNotes_both {notes ts : List String} (h1 : notes ≠ []) (h2 : ts ≠ []) :
    composeNotes notes ts =
      joinSep "；"
        ((notes ++
          ["候选脚本标记: " ++ joinSep "；" (unique_keep_order (ts.take 3))]).take 8) := by
  unfold composeNotes
  rw [if_pos h1, if_pos h2]

/-- C7: the logic-notes string is composed as specified: de-duplicated
explicit notes are authoritative; when both exist, at most 3
de-duplicated candidate signals (each of the form `name=value` with the
value truncated to 70 characters) are appended as one extra note and
the combined note list is capped at 8 entries joined by the delimiter;
candidates alone give the unresolved-rule note with at most 4
candidates; neither gives the exact sentinel. -/
theorem c7_logic_notes_composition (node : Node) (topic_id : Option Nat)
    (global_signals : List (String × String)) :
    (∀ sig ∈ topicSignals topic_id global_signals,
      ∃ name value, (name, value) ∈ global_signals ∧
        sig = name ++ "=" ++ truncate value 70) ∧
    (unique_keep_order (explicitNotes node) = [] →
      topicSignals topic_id global_signals = [] →
      extract_logic_notes node topic_id global_signals = "未检测到显式逻辑") ∧
    (unique_keep_order (explicitNotes node) = [] →
      topicSignals topic_id global_signals ≠ [] →
      extract_logic_notes node topic_id global_signals =
        "存在候选逻辑标记：" ++
          joinSep "；"
            (unique_keep_order ((topicSignals topic_id global_signals).take 4)) ++
          "（未形成可解析跳题规则）" ∧
      (unique_keep_order ((topicSignals topic_id global_signals).take 4)).length ≤ 4) ∧
    (unique_keep_order (explicitNotes node) ≠ [] →
      topicSignals topic_id global_signals = [] →
      extract_logic_notes node topic_id global_signals =
        joinSep "；" ((unique_keep_order (explicitNotes node)).take 8) ∧
      ((unique_keep_order (explicitNotes node)).take 8).length ≤ 8) ∧
    (unique_keep_order (explicitNotes node) ≠ [] →
      topicSignals topic_id global_signals ≠ [] →
      extract_logic_notes node topic_id global_signals =
        joinSep "；"
          ((unique_keep_order (explicitNotes node) ++
            ["候选脚本标记: " ++
              joinSep "；"
                (unique_keep_order
                  ((topicSignals topic_id global_signals).take 3))]).take 8) ∧
      ((unique_keep_order (explicitNotes node) ++
        ["候选脚本标记: " ++
          joinSep "；"
            (unique_keep_order
              ((topicSignals topic_id global_signals).take 3))]).take 8).length ≤ 8 ∧
      (unique_keep_order ((topicSignals topic_id global_signals).take 3)).length ≤ 3) := by
  refine ⟨?_, ?_, ?_, ?_, ?_⟩
  · intro sig hsig
    cases topic_id with
    | none => exact absurd hsig (List.not_mem_nil sig)
    | some t =>
      unfold topicSignals at hsig
      rcases List.mem_filterMap.mp hsig with ⟨pr, hpr, heq⟩
      split at heq
      · refine ⟨pr.1, pr.2, by simpa using hpr, ?_⟩
        exact (Option.some.inj heq).symm
      · exact absurd heq (by simp)
  · intro h1 h2
    exact composeNotes_nil_nil h1 h2
  · intro h1 h2
    exact ⟨composeNotes_only_signals h1 h2, unique_take_length_le _ 4⟩
  · intro h1 h2
    exact ⟨composeNotes_only_notes h1 h2, take_length_le _ 8⟩
  · intro h1 h2
    exact ⟨composeNotes_both h1 h2, take_length_le _ 8, unique_take_length_le _ 3⟩

/-- Witness for C7: a node with no notes and no signals returns the
exact sentinel. -/
theorem c7_logic_notes_composition_witness :
    extract_logic_notes qnodeNT none [] = "未检测到显式逻辑" :=
  (c7_logic_notes_composition qnodeNT none []).2.1 (by decide) (by decide)

/-! ### C4: which assignment pairs are kept as global logic signals -/

lemma mem_dictInsert {d : List (String × String)} {k v : String} {p : String × String}
    (h : p ∈ dictInsert d k v) : p = (k, v) ∨ p ∈ d := by
  unfold dictInsert at h
  split at h
  · rcases List.mem_map.mp h with ⟨q, hq, hfq⟩
    by_cases hk : q.1 = k
    · left
      rw [← hfq, if_pos hk]
    · right
      rw [← hfq, if_neg hk]
      exact hq
  · rcases List.mem_append.mp h with h | h
    · right
      exact h
    · left
      simpa using h

lemma self_mem_dictInsert (d : List (String × String)) (k v : String) :
    (k, v) ∈ dictInsert d k v := by
  unfold dictInsert
  split
  · rename_i hany
    rcases List.any_eq_true.mp hany with ⟨q, hq, hqk⟩
    refine List.mem_map.mpr ⟨q, hq, ?_⟩
    rw [if_pos (by simpa using hqk)]
  · exact List.mem_append.mpr (Or.inr (by simp))

lemma mem_dictInsert_of_ne {d : List (String × String)} {k v n w : String}
    (h : (n, w) ∈ d) (hne : n ≠ k) : (n, w) ∈ dictInsert d k v := by
  unfold dictInsert
  split
  · exact List.mem_map.mpr ⟨(n, w), h, by rw [if_neg (by simpa using hne)]⟩
  · exact List.mem_append.mpr (Or.inl h)

lemma signalStep_mem {acc : List (String × String)} {n v : String} {p : String × String}
    (h : p ∈ signalStep acc n v) :
    p ∈ acc ∨ (p = (n, truncate v 140) ∧ (keepName n || keepValue v) = true) := by
  unfold signalStep at h
  split at h
  · rename_i h1
    rcases mem_dictInsert h with h | h
    · right
      exact ⟨h, by simp [h1]⟩
    · left
      exact h
  · split at h
    · rename_i h2
      rcases mem_dictInsert h with h | h
      · right
        exact ⟨h, by simp [h2]⟩
      · left
        exact h
    · left
      exact h

lemma signalStep_key (acc : List (String × String)) (n v k w : String)
    (h : (k, w) ∈ acc) : ∃ u, (k, u) ∈ signalStep acc n v := by
  unfold signalStep
  by_cases hk : k = n
  · subst hk
    split
    · exact ⟨truncate v 140, self_mem_dictInsert _ _ _⟩
    · split
      · exact ⟨truncate v 140, self_mem_dictInsert _ _ _⟩
      · exact ⟨w, h⟩
  · split
    · exact ⟨w, mem_dictInsert_of_ne h hk⟩
    · split
      · exact ⟨w, mem_dictInsert_of_ne h hk⟩
      · exact ⟨w, h⟩

lemma signalStep_key_self {acc : List (String × String)} {n v : String}
    (hkeep : (keepName n || keepValue v) = true) :
    (n, truncate v 140) ∈ signalStep acc n v := by
  unfold signalStep
  by_cases h1 : keepName n
  · rw [if_pos h1]
    exact self_mem_dictInsert _ _ _
  · rw [if_neg h1]
    have h2 : keepValue v = true := by
      rcases Bool.eq_false_or_eq_true (keepName n) with hcn | hcn
      · exact absurd hcn h1
      · rw [hcn] at hkeep
        simpa using hkeep
    rw [if_pos h2]
    exact self_mem_dictInsert _ _ _

lemma signalsOfPairs_sound :
    ∀ (ps : List (String × String)) (acc : List (String × String)) (p : String × String),
      p ∈ signalsOfPairs acc ps →
      p ∈ acc ∨ ∃ rv, (p.1, rv) ∈ ps ∧ p.2 = truncate rv 140 ∧
        (keepName p.1 || keepValue rv) = true := by
  intro ps
  induction ps with
  | nil =>
    intro acc p h
    left
    exact h
  | cons hd rest ih =>
    intro acc p h
    obtain ⟨n, v⟩ := hd
    have h' : p ∈ signalsOfPairs (signalStep acc n v) rest := h
    rcases ih (signalStep acc n v) p h' with hacc | ⟨rv, hm, ht, hk⟩
    · rcases signalStep_mem hacc with ha | ⟨hpv, hkeep⟩
      · left
        exact ha
      · subst hpv
        right
        exact ⟨v, List.mem_cons_self _ _, rfl, hkeep⟩
    · right
      exact ⟨rv, List.mem_cons_of_mem _ hm, ht, hk⟩

lemma signalsOfPairs_key_mono :
    ∀ (ps acc : List (String × String)) (k w : String), (k, w) ∈ acc →
      ∃ u, (k, u) ∈ signalsOfPairs acc ps := by
  intro ps
  induction ps with
  | nil =>
    intro acc k w h
    exact ⟨w, h⟩
  | cons hd rest ih =>
    intro acc k w h
    obtain ⟨n, v⟩ := hd
    rcases signalStep_key acc n v k w h with ⟨u, hu⟩
    exact ih (signalStep acc n v) k u hu

lemma signalsOfPairs_complete :
    ∀ (ps acc : List (String × String)) (n v : String), (n, v) ∈ ps →
      (keepName n || keepValue v) = true → ∃ u, (n, u) ∈ signalsOfPairs acc ps := by
  intro ps
  induction ps with
  | nil =>
    intro acc n v h
    exact absurd h (List.not_mem_nil _)
  | cons hd rest ih =>
    intro acc n v hmem hkeep
    obtain ⟨k, w⟩ := hd
    rcases List.mem_cons.mp hmem with heq | htail
    · injection heq with e1 e2
      subst e1
      subst e2
      exact signalsOfPairs_key_mono rest _ n (truncate v 140) (signalStep_key_self hkeep)
    · exact ih (signalStep acc k w) n v htail hkeep

/-- Modelled from the claim's words: `name` or `value` "matches the
logic-related keyword set (relation/jump/logic/skip/display/condition,
case-insensitive)", read as containing one of those six keywords
case-insensitively. -/
def specLogicKeywordMatch (s : String) : Bool :=
  ["relation", "jump", "logic", "skip", "display", "condition"].any
    (fun k => containsStr (lowerString s) k)

/-- Counterexample for C4: the assignment `var relx = aaa;` is kept as a
signal by the code (the name regex uses the abbreviation `rel`), yet
neither its name nor its value matches the claim's keyword set
relation/jump/logic/skip/display/condition. -/
theorem c4_keyword_counterexample :
    ("relx", "aaa") ∈ extract_global_logic_signals "var relx = aaa;" ∧
    specLogicKeywordMatch "relx" = false ∧
    specLogicKeywordMatch "aaa" = false := by
  refine ⟨?_, by decide, by decide⟩
  have h : extract_global_logic_signals "var relx = aaa;" = [("relx", "aaa")] := by decide
  rw [h]
  exact List.mem_singleton.mpr rfl

/-- C4 (amended): a scanned assignment pair is kept iff the variable
name matches the code's name keyword set (rel/jump/logic/skip/display/
cond, case-insensitive) or the value matches the code's value keyword
set (rel/jump/logic/skip/display/condition); every kept entry stores
the value truncated to at most 140 characters. -/
theorem c4_signals_amended (html : String) :
    (∀ p ∈ extract_global_logic_signals html,
      p.2.length ≤ 140 ∧
      ∃ rawValue, (p.1, rawValue) ∈ scanAssignments html ∧
        p.2 = truncate rawValue 140 ∧ (keepName p.1 || keepValue rawValue) = true) ∧
    (∀ n v, (n, v) ∈ scanAssignments html → (keepName n || keepValue v) = true →
      ∃ u, (n, u) ∈ extract_global_logic_signals html) := by
  constructor
  · intro p hp
    rcases signalsOfPairs_sound (scanAssignments html) [] p hp with h | ⟨rv, hm, ht, hk⟩
    · exact absurd h (List.not_mem_nil p)
    · refine ⟨?_, rv, hm, ht, hk⟩
      rw [ht]
      exact truncate_length_le rv 140 (by omega)
  · intro n v hm hk
    exact signalsOfPairs_complete (scanAssignments html) [] n v hm hk

/-- Witness for the amended C4: the kept pair of the counterexample
document satisfies the amended characterization, and its stored value
is within the 140-character bound. -/
theorem c4_signals_amended_witness :
    ("relx", "aaa") ∈ extract_global_logic_signals "var relx = aaa;" ∧
    (("relx", "aaa") : String × String).2.length ≤ 140 := by
  have hmem : ("relx", "aaa") ∈ extract_global_logic_signals "var relx = aaa;" := by
    have h : extract_global_logic_signals "var relx = aaa;" = [("relx", "aaa")] := by decide
    rw [h]
    exact List.mem_singleton.mpr rfl
  exact ⟨hmem, ((c4_signals_amended "var relx = aaa;").1 ("relx", "aaa") hmem).1⟩

/-! ### The traversal invariant (C1, C3, C6, C8) -/

/-- The recognized question nodes of a node list: reached in the
question branch of the loop (not a divider, both question classes). -/
def qcountL (nodes : List Node) : Nat :=
  (nodes.filter (fun n => !is_cutfield n && is_question_field n)).length

/-- The recognized divider nodes of a node list. -/
def dcountL (nodes : List Node) : Nat :=
  (nodes.filter is_cutfield).length

/-- The loop invariant of `parse_survey`'s traversal: the display-index
counter equals the number of collected questions, indices and display
numbers form the contiguous sequence from 1, the current section and
every question's section are registered names, and the name list starts
with the default section, which never reappears. -/
def TravInv (st : TravState) : Prop :=
  st.display_index = st.questions.length ∧
  st.questions.map Question.index = List.range' 1 st.questions.length ∧
  st.questions.map Question.display_no =
    (List.range' 1 st.questions.length).map toString ∧
  st.current_section ∈ st.ordered_names ∧
  (∀ q ∈ st.questions, q.sectionName ∈ st.ordered_names) ∧
  (∃ tl, st.ordered_names = defaultSection :: tl ∧ defaultSection ∉ tl)

lemma travStep_divider {global_signals : List (String × String)} {st : TravState}
    {node : Node} (hcf : is_cutfield node = true) (hne : dividerName node ≠ "") :
    travStep global_signals st node =
      { st with
        current_section := dividerName node
        ordered_names :=
          if st.ordered_names.contains (dividerName node) then st.ordered_names
          else st.ordered_names ++ [dividerName node] } := by
  unfold travStep
  rw [if_pos hcf, if_pos hne]

lemma travStep_divider_empty {global_signals : List (String × String)} {st : TravState}
    {node : Node} (hcf : is_cutfield node = true) (he : dividerName node = "") :
    travStep global_signals st node = st := by
  unfold travStep
  rw [if_pos hcf, if_neg (by simp [he])]

lemma travStep_question {global_signals : List (String × String)} {st : TravState}
    {node : Node} (hcf : is_cutfield node = false) (hqf : is_question_field node = true) :
    travStep global_signals st node =
      { st with
        display_index := st.display_index + 1
        questions := st.questions ++
          [parse_question node (st.display_index + 1) st.current_section global_signals] } := by
  unfold travStep
  rw [if_neg (by simp [hcf]), if_pos hqf]

lemma travStep_other {global_signals : List (String × String)} {st : TravState}
    {node : Node} (hcf : is_cutfield node = false) (hqf : is_question_field node = false) :
    travStep global_signals st node = st := by
  unfold travStep
  rw [if_neg (by simp [hcf]), if_neg (by simp [hqf])]

lemma travStep_inv (gs : List (String × String)) (st : TravState) (node : Node)
    (h : TravInv st) : TravInv (travStep gs st node) := by
  obtain ⟨hdi, hidx, hdn, hcur, hq, tl, hnames, hdef⟩ := h
  cases hcf : is_cutfield node with
  | true =>
    by_cases hne : dividerName node = ""
    · rw [travStep_divider_empty hcf hne]
      exact ⟨hdi, hidx, hdn, hcur, hq, tl, hnames, hdef⟩
    · rw [travStep_divider hcf hne]
      by_cases hcont : st.ordered_names.contains (dividerName node) = true
      · rw [if_pos hcont]
        refine ⟨hdi, hidx, hdn, ?_, hq, tl, hnames, hdef⟩
        exact List.mem_of_elem_eq_true hcont
      · rw [if_neg hcont]
        refine ⟨hdi, hidx, hdn, ?_, ?_, tl ++ [dividerName node], ?_, ?_⟩
        · exact List.mem_append.mpr (Or.inr (List.mem_singleton.mpr rfl))
        · intro q hq2
          exact List.mem_append.mpr (Or.inl (hq q hq2))
        · rw [hnames]
          rfl
        · intro hmem
          rcases List.mem_append.mp hmem with h | h
          · exact hdef h
          · have heq : dividerName node = defaultSection := (List.mem_singleton.mp h).symm
            apply hcont
            rw [heq]
            exact List.elem_eq_true_of_mem (by rw [hnames]; exact List.mem_cons_self _ _)
  | false =>
    cases hqf : is_question_field node with
    | false =>
      rw [travStep_other hcf hqf]
      exact ⟨hdi, hidx, hdn, hcur, hq, tl, hnames, hdef⟩
    | true =>
      rw [travStep_question hcf hqf]
      refine ⟨?_, ?_, ?_, hcur, ?_, tl, hnames, hdef⟩
      · show st.display_index + 1 =
          (st.questions ++
            [parse_question node (st.display_index + 1) st.current_section gs]).length
        rw [List.length_append, hdi]
        rfl
      · show (st.questions ++
            [parse_question node (st.display_index + 1) st.current_section gs]).map
              Question.index =
          List.range' 1
            (st.questions ++
              [parse_question node (st.display_index + 1) st.current_section gs]).length
        rw [List.map_append, hidx, List.length_append]
        have hone : st.questions.length +
            ([parse_question node (st.display_index + 1) st.current_section gs]).length =
            st.questions.length + 1 := rfl
        rw [hone, List.range'_concat]
        congr 1
        show [st.display_index + 1] = [1 + 1 * st.questions.length]
        rw [hdi]
        congr 1
        omega
      · show (st.questions ++
            [parse_question node (st.display_index + 1) st.current_section gs]).map
              Question.display_no =
          (List.range' 1
            (st.questions ++
              [parse_question node (st.display_index + 1) st.current_section gs]).length).map
            toString
        rw [List.map_append, hdn, List.length_append]
        have hone : st.questions.length +
            ([parse_question node (st.display_index + 1) st.current_section gs]).length =
            st.questions.length + 1 := rfl
        rw [hone, List.range'_concat, List.map_append]
        congr 1
        show [toString (st.display_index + 1)] = [toString (1 + 1 * st.questions.length)]
        rw [hdi]
        congr 2
        omega
      · intro q hq2
        rcases List.mem_append.mp hq2 with h | h
        · exact hq q h
        · have heq : q = parse_question node (st.display_index + 1) st.current_section gs :=
            List.mem_singleton.mp h
          rw [heq]
          exact hcur

lemma travStep_questions_len (gs : List (String × String)) (st : TravState) (node : Node) :
    (travStep gs st node).questions.length =
      st.questions.length + (if !is_cutfield node && is_question_field node then 1 else 0) := by
  cases hcf : is_cutfield node with
  | true =>
    by_cases hne : dividerName node = ""
    · rw [travStep_divider_empty hcf hne]
      simp [hcf]
    · rw [travStep_divider hcf hne]
      simp [hcf]
  | false =>
    cases hqf : is_question_field node with
    | false =>
      rw [travStep_other hcf hqf]
      simp [hcf, hqf]
    | true =>
      rw [travStep_question hcf hqf]
      simp [hcf, hqf]

lemma travStep_names_len (gs : List (String × String)) (st : TravState) (node : Node) :
    (travStep gs st node).ordered_names.length ≤
      st.ordered_names.length + (if is_cutfield node then 1 else 0) := by
  cases hcf : is_cutfield node with
  | true =>
    by_cases hne : dividerName node = ""
    · rw [travStep_divider_empty hcf hne]
      simp [hcf]
    · rw [travStep_divider hcf hne]
      by_cases hcont : st.ordered_names.contains (dividerName node) = true
      · rw [if_pos hcont]
        simp [hcf]
      · rw [if_neg hcont]
        simp [hcf]
  | false =>
    cases hqf : is_question_field node with
    | false =>
      rw [travStep_other hcf hqf]
      simp [hcf]
    | true =>
      rw [travStep_question hcf hqf]
      simp [hcf]

lemma foldl_travStep_inv (gs : List (String × String)) :
    ∀ (nodes : List Node) (st : TravState), TravInv st →
      TravInv (nodes.foldl (travStep gs) st) := by
  intro nodes
  induction nodes with
  | nil => intro st h; exact h
  | cons n rest ih =>
    intro st h
    rw [List.foldl_cons]
    exact ih _ (travStep_inv gs st n h)

lemma foldl_travStep_qlen (gs : List (String × String)) :
    ∀ (nodes : List Node) (st : TravState),
      (nodes.foldl (travStep gs) st).questions.length =
        st.questions.length + qcountL nodes := by
  intro nodes
  induction nodes with
  | nil =>
    intro st
    simp [qcountL]
  | cons n rest ih =>
    intro st
    rw [List.foldl_cons, ih (travStep gs st n), travStep_questions_len]
    unfold qcountL
    rw [List.filter_cons]
    by_cases hc : (!is_cutfield n && is_question_field n) = true
    · simp [hc]
      omega
    · simp [hc]

lemma foldl_travStep_names_len (gs : List (String × String)) :
    ∀ (nodes : List Node) (st : TravState),
      (nodes.foldl (travStep gs) st).ordered_names.length ≤
        st.ordered_names.length + dcountL nodes := by
  intro nodes
  induction nodes with
  | nil =>
    intro st
    simp [dcountL]
  | cons n rest ih =>
    intro st
    rw [List.foldl_cons]
    have h1 := ih (travStep gs st n)
    have h2 := travStep_names_len gs st n
    unfold dcountL
    rw [List.filter_cons]
    unfold dcountL at h1
    by_cases hc : is_cutfield n = true
    · simp [hc] at h2 ⊢
      omega
    · simp [hc] at h2 ⊢
      omega

lemma travInv_init : TravInv travInit := by
  refine ⟨rfl, rfl, rfl, ?_, ?_, [], rfl, ?_⟩
  · exact List.mem_singleton.mpr rfl
  · intro q hq
    exact absurd hq (List.not_mem_nil q)
  · exact List.not_mem_nil _

/-! ### `build_sections` lemmas (C1, C3) -/

lemma mkSection_name {questions : List Question} {nm : String} {sec : Section}
    (h : mkSection questions nm = some sec) : sec.name = nm := by
  unfold mkSection at h
  split at h
  · exact absurd h (by simp)
  · rw [← Option.some.inj h]

lemma mkSection_default (questions : List Question) :
    mkSection questions defaultSection =
      some ⟨defaultSection, listMin (topicsOf questions defaultSection),
        listMax (topicsOf questions defaultSection)⟩ := by
  unfold mkSection
  rw [if_neg (by simp)]

lemma mkSection_of_topics_ne (questions : List Question) (nm : String)
    (ht : topicsOf questions nm ≠ []) :
    mkSection questions nm =
      some ⟨nm, listMin (topicsOf questions nm), listMax (topicsOf questions nm)⟩ := by
  unfold mkSection
  rw [if_neg (by simp [List.isEmpty_iff, ht])]

lemma listMin_isSome {l : List Nat} (h : l ≠ []) : (listMin l).isSome := by
  cases l with
  | nil => exact absurd rfl h
  | cons x rest =>
    show (listMin (x :: rest)).isSome
    unfold listMin
    cases listMin rest <;> simp

lemma withDefault_of_mem {l : List Section} {sec : Section} (h : sec ∈ l) :
    sec ∈ withDefault l := by
  unfold withDefault
  split
  · rename_i he
    rw [List.isEmpty_iff.mp he] at h
    exact absurd h (List.not_mem_nil sec)
  · exact h

lemma mem_dropEmptyDefault_of_isSome {l : List Section} {sec : Section}
    (hm : sec ∈ l) (hs : sec.start_topic.isSome) : sec ∈ dropEmptyDefault l := by
  unfold dropEmptyDefault
  split
  · refine List.mem_filter.mpr ⟨hm, ?_⟩
    rcases Option.isSome_iff_exists.mp hs with ⟨a, ha⟩
    simp [ha]
  · exact hm

lemma build_sections_mem_of_topics {questions : List Question} {names : List String}
    {nm : String} (hn : nm ∈ names) (ht : topicsOf questions nm ≠ []) :
    ∃ sec ∈ build_sections questions names, sec.name = nm := by
  refine ⟨⟨nm, listMin (topicsOf questions nm), listMax (topicsOf questions nm)⟩, ?_, rfl⟩
  unfold build_sections
  apply mem_dropEmptyDefault_of_isSome
  · exact withDefault_of_mem
      (List.mem_filterMap.mpr ⟨nm, hn, mkSection_of_topics_ne questions nm ht⟩)
  · exact listMin_isSome ht

lemma build_sections_ne_nil (questions : List Question) (tl : List String)
    (hdef : defaultSection ∉ tl) :
    build_sections questions (defaultSection :: tl) ≠ [] := by
  unfold build_sections
  rw [List.filterMap_cons_some (mkSection_default questions)]
  rw [withDefault, if_neg (by simp)]
  unfold dropEmptyDefault
  split
  · rename_i hlen
    cases hrest : tl.filterMap (mkSection questions) with
    | nil =>
      rw [hrest] at hlen
      exact absurd hlen (by simp)
    | cons sec rrest =>
      have hsecmem : sec ∈ tl.filterMap (mkSection questions) := by
        rw [hrest]
        exact List.mem_cons_self _ _
      have hname : sec.name ≠ defaultSection := by
        rcases List.mem_filterMap.mp hsecmem with ⟨nm, hnm, heq⟩
        rw [mkSection_name heq]
        intro hc
        exact hdef (hc ▸ hnm)
      intro hnil
      have hin : sec ∈ List.filter
          (fun s => !(s.name = defaultSection && s.start_topic.isNone && s.end_topic.isNone))
          (⟨defaultSection, listMin (topicsOf questions defaultSection),
            listMax (topicsOf questions defaultSection)⟩ :: sec :: rrest) :=
        List.mem_filter.mpr
          ⟨List.mem_cons_of_mem _ (List.mem_cons_self _ _), by simp [hname]⟩
      rw [hnil] at hin
      exact absurd hin (List.not_mem_nil sec)
  · simp

lemma build_sections_length_le (questions : List Question) (names : List String)
    (h : names ≠ []) : (build_sections questions names).length ≤ names.length := by
  unfold build_sections
  have h1 : (names.filterMap (mkSection questions)).length ≤ names.length :=
    List.length_filterMap_le _ _
  have h2 : (withDefault (names.filterMap (mkSection questions))).length ≤ names.length := by
    unfold withDefault
    split
    · have := List.length_pos.mpr h
      simp
      omega
    · exact h1
  unfold dropEmptyDefault
  split
  · exact Nat.le_trans (List.length_filter_le _ _) h2
  · exact h2

/-! ### Unfolding lemmas for `parse_survey` -/

lemma parse_survey_no_container {html : String} {doc : Node} {source_url now : String}
    (hres : check_restricted_page html = none) (hcont : findContainer doc = none) :
    parse_survey html doc source_url now = .error ⟨EXIT_PARSE, containerMissingMsg⟩ := by
  unfold parse_survey
  rw [hres, hcont]

lemma parse_survey_container {html : String} {doc container : Node} {source_url now : String}
    (hres : check_restricted_page html = none)
    (hcont : findContainer doc = some container) :
    parse_survey html doc source_url now =
      (if (runTraversal (extract_global_logic_signals html)
            (select container (tagSel "div"))).questions.isEmpty then
        Except.error ⟨EXIT_PARSE, noQuestionsMsg⟩
       else
        Except.ok
          { title := surveyTitle doc
            description := extract_description doc
            source_url := source_url
            crawl_time := now
            sections := build_sections
              (runTraversal (extract_global_logic_signals html)
                (select container (tagSel "div"))).questions
              (runTraversal (extract_global_logic_signals html)
                (select container (tagSel "div"))).ordered_names
            questions := (runTraversal (extract_global_logic_signals html)
              (select container (tagSel "div"))).questions }) := by
  unfold parse_survey
  rw [hres, hcont]

lemma parse_survey_ok_dest {html : String} {doc : Node} {source_url now : String} {s : Survey}
    (h : parse_survey html doc source_url now = .ok s) :
    check_restricted_page html = none ∧
    ∃ container, findContainer doc = some container ∧
      s.questions = (runTraversal (extract_global_logic_signals html)
        (select container (tagSel "div"))).questions ∧
      s.sections = build_sections
        (runTraversal (extract_global_logic_signals html)
          (select container (tagSel "div"))).questions
        (runTraversal (extract_global_logic_signals html)
          (select container (tagSel "div"))).ordered_names := by
  cases hres : check_restricted_page html with
  | some reason =>
    rw [parse_survey_restricted hres] at h
    exact absurd h (by simp)
  | none =>
    refine ⟨rfl, ?_⟩
    cases hcont : findContainer doc with
    | none =>
      rw [parse_survey_no_container hres hcont] at h
      exact absurd h (by simp)
    | some container =>
      rw [parse_survey_container hres hcont] at h
      refine ⟨container, rfl, ?_⟩
      split at h
      · exact absurd h (by simp)
      · have hs := Except.ok.inj h
        rw [← hs]
        exact ⟨rfl, rfl⟩

/-! ### C1: question count, contiguous display indices, section bound -/

lemma runTraversal_qlen (html : String) (container : Node) :
    (runTraversal (extract_global_logic_signals html)
      (select container (tagSel "div"))).questions.length =
      qcountL (select container (tagSel "div")) := by
  unfold runTraversal
  rw [foldl_travStep_qlen]
  simp [travInit]

lemma runTraversal_inv (html : String) (container : Node) :
    TravInv (runTraversal (extract_global_logic_signals html)
      (select container (tagSel "div"))) :=
  foldl_travStep_inv (extract_global_logic_signals html)
    (select container (tagSel "div")) travInit travInv_init

/-- C1: for every accepted input (not restricted, container present —
both implied by a successful parse), the survey has exactly as many
questions as recognized question nodes, their display indices are the
contiguous sequence 1..N in traversal order with the display number the
string form of the index, and there are at most D+1 sections for D
recognized divider nodes. -/
theorem c1_contiguous_indices (html : String) (doc : Node) (source_url now : String)
    (s : Survey) (hok : parse_survey html doc source_url now = .ok s) :
    ∃ container, findContainer doc = some container ∧
      s.questions.length = qcountL (select container (tagSel "div")) ∧
      s.questions.map Question.index =
        List.range' 1 (qcountL (select container (tagSel "div"))) ∧
      s.questions.map Question.display_no =
        (List.range' 1 (qcountL (select container (tagSel "div")))).map toString ∧
      s.sections.length ≤ dcountL (select container (tagSel "div")) + 1 := by
  obtain ⟨hres, container, hcont, hq, hs⟩ := parse_survey_ok_dest hok
  obtain ⟨hdi, hidx, hdn, hcur, hqsec, tl, hnames, hdef⟩ := runTraversal_inv html container
  refine ⟨container, hcont, ?_, ?_, ?_, ?_⟩
  · rw [hq, runTraversal_qlen]
  · rw [hq, hidx, runTraversal_qlen]
  · rw [hq, hdn, runTraversal_qlen]
  · rw [hs]
    have hb := build_sections_length_le
      (runTraversal (extract_global_logic_signals html)
        (select container (tagSel "div"))).questions
      (runTraversal (extract_global_logic_signals html)
        (select container (tagSel "div"))).ordered_names
      (by rw [hnames]; simp)
    have hnl : (runTraversal (extract_global_logic_signals html)
        (select container (tagSel "div"))).ordered_names.length ≤
        1 + dcountL (select container (tagSel "div")) := by
      unfold runTraversal
      have h := foldl_travStep_names_len (extract_global_logic_signals html)
        (select container (tagSel "div")) travInit
      have hinit : travInit.ordered_names.length = 1 := rfl
      omega
    omega

/-- Witness for C1: parsing `docW` yields one question with index
sequence `[1]` and a single section. -/
theorem c1_contiguous_indices_witness :
    parse_survey "" docW "u" "t" = Except.ok surveyW ∧
    surveyW.questions.map Question.index = List.range' 1 1 ∧
    surveyW.sections.length ≤ 1 := by
  obtain ⟨container, hcont, hlen, hidx, hdn, hsec⟩ :=
    c1_contiguous_indices "" docW "u" "t" surveyW (by decide)
  have hc : container = containerW := by
    have h2 : findContainer docW = some containerW := by rfl
    rw [h2] at hcont
    exact (Option.some.inj hcont).symm
  subst hc
  have hqc : qcountL (select containerW (tagSel "div")) = 1 := by decide
  have hdc : dcountL (select containerW (tagSel "div")) = 0 := by decide
  rw [hqc] at hidx
  rw [hdc] at hsec
  exact ⟨by decide, hidx, hsec⟩

/-! ### C6: structural-failure classification -/

/-- C6: on an unrestricted page, `parse_survey` raises the
`StructuralParseFailure`-classified error exactly when the question
container is missing or zero question nodes are recognized; otherwise
it returns a `Survey`. -/
theorem c6_structural_failure (html : String) (doc : Node) (source_url now : String)
    (hres : check_restricted_page html = none) :
    (findContainer doc = none →
      parse_survey html doc source_url now = .error ⟨EXIT_PARSE, containerMissingMsg⟩) ∧
    (∀ container, findContainer doc = some container →
      (qcountL (select container (tagSel "div")) = 0 →
        parse_survey html doc source_url now = .error ⟨EXIT_PARSE, noQuestionsMsg⟩) ∧
      (qcountL (select container (tagSel "div")) ≠ 0 →
        ∃ s, parse_survey html doc source_url now = Except.ok s)) := by
  constructor
  · intro hcont
    exact parse_survey_no_container hres hcont
  · intro container hcont
    constructor
    · intro hzero
      rw [parse_survey_container hres hcont, if_pos ?_]
      rw [List.isEmpty_iff, ← List.length_eq_zero, runTraversal_qlen]
      exact hzero
    · intro hne
      rw [parse_survey_container hres hcont, if_neg ?_]
      · exact ⟨_, rfl⟩
      · rw [List.isEmpty_iff, ← List.length_eq_zero, runTraversal_qlen]
        exact hne

/-- Witness for C6: a document with no `#divQuestion` container fails
with the container-missing message. -/
theorem c6_structural_failure_witness :
    parse_survey "" (Node.elem "html" [] [] []) "u" "t" =
      Except.error ⟨EXIT_PARSE, containerMissingMsg⟩ :=
  (c6_structural_failure "" (Node.elem "html" [] [] []) "u" "t" (by decide)).1 (by rfl)

/-! ### C3: section invariants -/

/-- Does every question's section name appear among the returned
sections?  (The first conjunct of the claim, as a decidable check.) -/
def questionSectionsCovered (s : Survey) : Bool :=
  s.questions.all (fun q => s.sections.any (fun sec => sec.name = q.sectionName))

/-- Counterexample for C3: in `docC3` a named divider is followed by one
topic-less question; `build_sections` drops the section (it has a
question but no topic ids), so the question's `section` field names no
returned `Section`, and a section with an associated question was
dropped without being the only section encountered. -/
theorem c3_section_counterexample :
    parse_survey "" docC3 "u" "t" = Except.ok surveyC3 ∧
    questionSectionsCovered surveyC3 = false ∧
    surveyC3.questions.map Question.sectionName = ["A"] ∧
    surveyC3.sections.map Section.name = ["题目列表"] :=
  ⟨by decide, by decide, by decide, by decide⟩

/-- C3 (amended): for every survey returned by a successful parse, the
sections list is never empty; every question whose section holds at
least one question with a topic id has its section name among the
returned sections; and a question section name that is missing from the
returned sections belongs to a section none of whose questions carries
a topic id. -/
theorem c3_section_invariants (html : String) (doc : Node) (source_url now : String)
    (s : Survey) (hok : parse_survey html doc source_url now = .ok s) :
    s.sections ≠ [] ∧
    (∀ q ∈ s.questions,
      (∃ q2 ∈ s.questions, q2.sectionName = q.sectionName ∧ q2.topic_id.isSome) →
      ∃ sec ∈ s.sections, sec.name = q.sectionName) ∧
    (∀ q ∈ s.questions, (∀ sec ∈ s.sections, sec.name ≠ q.sectionName) →
      ∀ q2 ∈ s.questions, q2.sectionName = q.sectionName → q2.topic_id = none) := by
  obtain ⟨hres, container, hcont, hq, hs⟩ := parse_survey_ok_dest hok
  obtain ⟨hdi, hidx, hdn, hcur, hqsec, tl, hnames, hdef⟩ := runTraversal_inv html container
  have hcover : ∀ q ∈ s.questions,
      (∃ q2 ∈ s.questions, q2.sectionName = q.sectionName ∧ q2.topic_id.isSome) →
      ∃ sec ∈ s.sections, sec.name = q.sectionName := by
    intro q hqmem hex
    rcases hex with ⟨q2, hq2mem, hq2sec, hq2top⟩
    rw [hs]
    have hqmem2 : q ∈ (runTraversal (extract_global_logic_signals html)
        (select container (tagSel "div"))).questions := by
      rw [← hq]
      exact hqmem
    have hq2mem2 : q2 ∈ (runTraversal (extract_global_logic_signals html)
        (select container (tagSel "div"))).questions := by
      rw [← hq]
      exact hq2mem
    have hnmem : q.sectionName ∈ (runTraversal (extract_global_logic_signals html)
        (select container (tagSel "div"))).ordered_names := hqsec q hqmem2
    have htne : topicsOf (runTraversal (extract_global_logic_signals html)
        (select container (tagSel "div"))).questions q.sectionName ≠ [] := by
      rcases Option.isSome_iff_exists.mp hq2top with ⟨t, ht⟩
      apply List.ne_nil_of_mem
      show t ∈ _
      unfold topicsOf
      exact List.mem_filterMap.mpr
        ⟨q2, List.mem_filter.mpr ⟨hq2mem2, by simp [hq2sec]⟩, ht⟩
    exact build_sections_mem_of_topics hnmem htne
  refine ⟨?_, hcover, ?_⟩
  · rw [hs, hnames]
    exact build_sections_ne_nil _ tl hdef
  · intro q hqmem hno q2 hq2mem hq2sec
    by_contra hne
    have hq2top : q2.topic_id.isSome := by
      cases hq2t : q2.topic_id with
      | none => exact absurd hq2t hne
      | some t => rfl
    rcases hcover q hqmem ⟨q2, hq2mem, hq2sec, hq2top⟩ with ⟨sec, hsecmem, hsecname⟩
    exact hno sec hsecmem hsecname

/-- Witness for the amended C3: the sections of the `docW` parse are
non-empty. -/
theorem c3_section_invariants_witness : surveyW.sections ≠ [] :=
  (c3_section_invariants "" docW "u" "t" surveyW (by decide)).1

/-! ### C8: divider handling -/

lemma foldl_no_divider (gs : List (String × String)) :
    ∀ (nodes : List Node) (st : TravState),
      (∀ n ∈ nodes, is_cutfield n = false) →
      (nodes.foldl (travStep gs) st).current_section = st.current_section ∧
      ∀ q ∈ (nodes.foldl (travStep gs) st).questions,
        q ∈ st.questions ∨ q.sectionName = st.current_section := by
  intro nodes
  induction nodes with
  | nil =>
    intro st _
    exact ⟨rfl, fun q hq => Or.inl hq⟩
  | cons n rest ih =>
    intro st h
    have hn : is_cutfield n = false := h n (List.mem_cons_self _ _)
    have hrest : ∀ m ∈ rest, is_cutfield m = false :=
      fun m hm => h m (List.mem_cons_of_mem _ hm)
    have hcur : (travStep gs st n).current_section = st.current_section := by
      cases hqf : is_question_field n with
      | true => rw [travStep_question hn hqf]
      | false => rw [travStep_other hn hqf]
    have hq : ∀ q ∈ (travStep gs st n).questions,
        q ∈ st.questions ∨ q.sectionName = st.current_section := by
      cases hqf : is_question_field n with
      | true =>
        rw [travStep_question hn hqf]
        intro q hq2
        rcases List.mem_append.mp hq2 with h2 | h2
        · exact Or.inl h2
        · right
          rw [List.mem_singleton.mp h2]
          rfl
      | false =>
        rw [travStep_other hn hqf]
        exact fun q hq2 => Or.inl hq2
    obtain ⟨ihc, ihq⟩ := ih (travStep gs st n) hrest
    rw [List.foldl_cons]
    constructor
    · rw [ihc, hcur]
    · intro q hq2
      rcases ihq q hq2 with h2 | h2
      · exact hq q h2
      · right
        rw [h2, hcur]

/-- The section name assigned to the first question of a parsed survey,
`none` when parsing fails. -/
def firstQuestionSectionName : Except ExportError Survey → Option String
  | .ok s => s.questions.head?.map Question.sectionName
  | .error _ => none

/-- Counterexample for C8: the divider `cutEmpty` has empty text (its
own and its first child's), yet the following question is assigned the
untouched default section name, not that (empty) text: an empty divider
does not become the current section name. -/
theorem c8_divider_counterexample :
    is_cutfield cutEmpty = true ∧
    tag_text (some cutEmpty) = "" ∧
    tag_text (selOne cutEmpty (tagSel "div")) = "" ∧
    firstQuestionSectionName (parse_survey "" docC8 "u" "t") = some "题目列表" ∧
    ("题目列表" : String) ≠ "" :=
  ⟨by decide, by decide, by decide, by decide, by decide⟩

/-- C8 (amended): a divider node's derived name — the text of its first
descendant `div`, or its own text when that is empty — becomes the new
current-section name only when the derived name is non-empty, in which
case it is appended to the ordered name list only if not already
present and the question list is untouched; an empty-named divider
leaves the state unchanged; and as long as no further divider occurs,
every newly collected question is assigned the current section name. -/
theorem c8_divider_behaviour (gs : List (String × String)) (st : TravState) (node : Node) :
    (is_cutfield node = true → dividerName node ≠ "" →
      (travStep gs st node).current_section = dividerName node ∧
      (travStep gs st node).ordered_names =
        (if st.ordered_names.contains (dividerName node) then st.ordered_names
         else st.ordered_names ++ [dividerName node]) ∧
      (travStep gs st node).questions = st.questions) ∧
    (is_cutfield node = true → dividerName node = "" → travStep gs st node = st) ∧
    (∀ nodes : List Node, (∀ n ∈ nodes, is_cutfield n = false) →
      ∀ q ∈ (nodes.foldl (travStep gs) st).questions,
        q ∈ st.questions ∨ q.sectionName = st.current_section) := by
  refine ⟨?_, ?_, ?_⟩
  · intro hcf hne
    rw [travStep_divider hcf hne]
    exact ⟨rfl, rfl, rfl⟩
  · intro hcf he
    exact travStep_divider_empty hcf he
  · intro nodes hnod
    exact (foldl_no_divider gs nodes st hnod).2

/-- Witness for the amended C8: stepping over the divider `cutA` from
the initial state sets the current section to its derived name `"A"`
and registers it. -/
theorem c8_divider_behaviour_witness :
    (travStep [] travInit cutA).current_section = "A" ∧
    (travStep [] travInit cutA).ordered_names = ["题目列表", "A"] := by
  obtain ⟨h1, h2, h3⟩ := (c8_divider_behaviour [] travInit cutA).1 (by decide) (by decide)
  constructor
  · rw [h1]
    decide
  · rw [h2]
    decide

end Wjx
